import Mathlib

/-!
Verification development for a recursive Monte Carlo path tracer
("Ray Tracing in One Weekend" style, C++ sources under include/ and src/).

The embedding models C++ `double` arithmetic as exact real arithmetic (`ℝ`).
Interval bounds are modelled as `EReal`, since the program stores
`infinity` in `interval` bounds and only ever compares them.  Stochastic
choices (the process-wide `random_double` source and the rejection-sampled
unit-sphere / unit-disk draws) are modelled by explicit oracle arguments:
each random decision point reads its value from a supplied tape, which is
the standard shallow embedding of a program whose randomness comes from a
single deterministic, seeded stream.
-/

open Classical

noncomputable section

/-- Model of `vec3` (vec3.h): three `double` components. -/
@[ext] structure vec3 where
  x : ℝ
  y : ℝ
  z : ℝ

/-- Componentwise addition, `operator+` in vec3.h. -/
def vec3.add (u v : vec3) : vec3 := ⟨u.x + v.x, u.y + v.y, u.z + v.z⟩

instance : Add vec3 := ⟨vec3.add⟩

/-- Componentwise subtraction, `operator-` in vec3.h. -/
def vec3.sub (u v : vec3) : vec3 := ⟨u.x - v.x, u.y - v.y, u.z - v.z⟩

instance : Sub vec3 := ⟨vec3.sub⟩

/-- Unary minus, `operator-()` in vec3.h. -/
def vec3.neg (v : vec3) : vec3 := ⟨-v.x, -v.y, -v.z⟩

instance : Neg vec3 := ⟨vec3.neg⟩

/-- Scalar multiplication `t * v`, vec3.h `operator*(double, vec3)`. -/
def vec3.smul (t : ℝ) (v : vec3) : vec3 := ⟨t * v.x, t * v.y, t * v.z⟩

instance : SMul ℝ vec3 := ⟨vec3.smul⟩

/-- Componentwise (Hadamard) product, vec3.h `operator*(vec3, vec3)`. -/
def vec3.hadamard (u v : vec3) : vec3 := ⟨u.x * v.x, u.y * v.y, u.z * v.z⟩

instance : Mul vec3 := ⟨vec3.hadamard⟩

/-- Vector-scalar division, vec3.h `operator/(vec3, double)`: `(1/t) * v`. -/
def vec3.divScalar (v : vec3) (t : ℝ) : vec3 := (1 / t) • v

instance : HDiv vec3 ℝ vec3 := ⟨vec3.divScalar⟩

/-- `vec3::length_squared`. -/
def vec3.length_squared (v : vec3) : ℝ := v.x * v.x + v.y * v.y + v.z * v.z

/-- `vec3::length`. -/
def vec3.length (v : vec3) : ℝ := Real.sqrt v.length_squared

/-- `dot` from vec3.h. -/
def dot (u v : vec3) : ℝ := u.x * v.x + u.y * v.y + u.z * v.z

/-- `cross` from vec3.h. -/
def cross (u v : vec3) : vec3 :=
  ⟨u.y * v.z - u.z * v.y, u.z * v.x - u.x * v.z, u.x * v.y - u.y * v.x⟩

/-- `unit_vector` from vec3.h: `v / v.length()`. -/
def unit_vector (v : vec3) : vec3 := v / v.length

/-- The C++ conversion of a `bool` to `double`: `true ↦ 1.0`, `false ↦ 0.0`.
Used to embed the expression `std::fabs(e[1] < s)` of `vec3::near_zero`, in
which the comparison result is implicitly promoted to `double` before
`std::fabs` is applied. -/
def boolAsDouble (p : Prop) : ℝ := if p then 1 else 0

/-- `vec3::near_zero` exactly as written in vec3.h line 130:
`(std::fabs(e[0]) < s) && (std::fabs(e[1] < s)) && (std::fabs(e[2]) < s)`.
The middle conjunct applies `fabs` to the boolean `e[1] < s` (promoted to
`double`), and the resulting `double` is converted back to `bool` (`≠ 0`)
by `&&`. -/
def vec3.near_zero (v : vec3) : Prop :=
  |v.x| < 1e-8 ∧ |boolAsDouble (v.y < 1e-8)| ≠ 0 ∧ |v.z| < 1e-8

/-- The near-zero test as the specification words it: every component has
absolute value below `1e-8`.  This is the comparison point for the claim
about `vec3::near_zero`; the code's own version is `vec3.near_zero`. -/
def nearZeroSpec (v : vec3) : Prop :=
  |v.x| < 1e-8 ∧ |v.y| < 1e-8 ∧ |v.z| < 1e-8

/-- `reflect` from vec3.h: `v - 2*dot(v,n)*n`. -/
def reflect (v n : vec3) : vec3 := v - (2 * dot v n) • n

/-- `refract` from vec3.h. -/
def refract (uv n : vec3) (etai_over_etat : ℝ) : vec3 :=
  let cos_theta := min (dot (-uv) n) 1
  let r_out_perp := etai_over_etat • (uv + cos_theta • n)
  let r_out_parallel := (-Real.sqrt |1 - r_out_perp.length_squared|) • n
  r_out_perp + r_out_parallel

/-- Model of `ray` (ray.h). -/
structure ray where
  orig : vec3
  dir : vec3

/-- `ray::origin()`. -/
def ray.origin (r : ray) : vec3 := r.orig

/-- `ray::direction()`. -/
def ray.direction (r : ray) : vec3 := r.dir

/-- `ray::at`: `orig + t * dir`. -/
def ray.at (r : ray) (t : ℝ) : vec3 := r.orig + t • r.dir

/-- Model of `interval` (interval.h).  Bounds live in `EReal` because the
program stores `±infinity` in them (`interval(0.001, infinity)` in
`Camera::ray_color`, the empty and universe constants) and only compares
them; all intersection parameters themselves are finite reals. -/
structure interval where
  min : EReal
  max : EReal

/-- `interval::surrounds`: `min < x && x < max`. -/
def interval.surrounds (i : interval) (x : ℝ) : Prop :=
  i.min < (x : EReal) ∧ (x : EReal) < i.max

/-- The material variants of material.h as a closed sum: `lambertian`,
`metal`, and the dielectric class (spelled `dialectric` in the source). -/
inductive material where
  | lambertian (albedo : vec3)
  | metal (albedo : vec3) (fuzz : ℝ)
  | dialectric (refraction_index : ℝ)

/-- The `metal` constructor of material.h line 112: it stores
`fuzz < 1 ? fuzz : 1`. -/
def makeMetal (albedo : vec3) (fuzz : ℝ) : material :=
  .metal albedo (if fuzz < 1 then fuzz else 1)

/-- The stored fuzz value of a material (0 for non-metals). -/
def material.fuzzOf : material → ℝ
  | .metal _ f => f
  | _ => 0

/-- `dialectric::reflectance`, Schlick's approximation. -/
def reflectance (cosine refraction_index : ℝ) : ℝ :=
  let r0 := (1 - refraction_index) / (1 + refraction_index)
  let r0 := r0 * r0
  r0 + (1 - r0) * (1 - cosine) ^ (5 : ℕ)

/-- Model of `hit_record` (hittable.h). -/
@[ext] structure hit_record where
  p : vec3
  normal : vec3
  mat : material
  t : ℝ
  front_face : Bool

instance : Inhabited hit_record :=
  ⟨⟨⟨0, 0, 0⟩, ⟨0, 0, 0⟩, .lambertian ⟨0, 0, 0⟩, 0, false⟩⟩

/-- `hit_record::set_face_normal`: `front_face = dot(direction, outward) < 0;
normal = front_face ? outward : -outward`. -/
def hit_record.set_face_normal (rec : hit_record) (r : ray) (outward_normal : vec3) :
    hit_record :=
  let ff : Bool := if dot r.direction outward_normal < 0 then true else false
  { rec with front_face := ff,
             normal := if ff then outward_normal else -outward_normal }

/-- One random draw consumed by a single `material::scatter` call: the result
of `random_unit_vector()` and the result of `random_double()`. -/
structure scatter_draws where
  ruv : vec3
  rd : ℝ

/-- `material::scatter` dispatch over the three variants, translated from
material.h.  The return triple models `(return value, attenuation,
scattered)`: the C++ writes the two out-parameters on every path before
returning. -/
def material.scatter (m : material) (r_in : ray) (rec : hit_record)
    (d : scatter_draws) : Bool × vec3 × ray :=
  match m with
  | .lambertian albedo =>
      let scatter_direction := rec.normal + d.ruv
      let scatter_direction :=
        if scatter_direction.near_zero then rec.normal else scatter_direction
      (true, albedo, ⟨rec.p, scatter_direction⟩)
  | .metal albedo fuzz =>
      let reflected := reflect r_in.direction rec.normal
      let reflected := unit_vector reflected + fuzz • d.ruv
      let scattered : ray := ⟨rec.p, reflected⟩
      ((if dot scattered.direction rec.normal > 0 then true else false),
        albedo, scattered)
  | .dialectric refraction_index =>
      let attenuation : vec3 := ⟨1, 1, 1⟩
      let ri := if rec.front_face then 1 / refraction_index else refraction_index
      let ud := unit_vector r_in.direction
      let cos_theta := min (dot (-ud) rec.normal) 1
      let sin_theta := Real.sqrt (1 - cos_theta * cos_theta)
      let cannot_refract := ri * sin_theta > 1
      let direction :=
        if cannot_refract ∨ reflectance cos_theta ri > d.rd then
          reflect ud rec.normal
        else
          refract ud rec.normal ri
      (true, attenuation, ⟨rec.p, direction⟩)

/-- Model of `sphere` (sphere.h). -/
structure sphere where
  center : vec3
  radius : ℝ
  mat : material

/-- The record-filling tail of `sphere::hit` (sphere.h lines 82-87):
`rec.t = root; rec.p = r.at(rec.t);` compute the outward normal
`(rec.p - center) / radius`, orient it with `set_face_normal`, and store the
material. -/
def sphere.fill_record (s : sphere) (r : ray) (root : ℝ) (rec : hit_record) :
    hit_record :=
  let rec1 : hit_record := { rec with t := root, p := r.at root }
  let outward_normal := (rec1.p - s.center) / s.radius
  let rec2 := rec1.set_face_normal r outward_normal
  { rec2 with mat := s.mat }

/-- `sphere::hit` (sphere.h lines 60-90).  Returns the pair
`(return value, final state of the by-reference record)`. -/
def sphere.hit (s : sphere) (r : ray) (ray_t : interval) (rec : hit_record) :
    Bool × hit_record :=
  let oc := s.center - r.origin
  let a := r.direction.length_squared
  let h := dot r.direction oc
  let c := oc.length_squared - s.radius * s.radius
  let discriminant := h * h - a * c
  if discriminant < 0 then (false, rec)
  else
    let sqrtd := Real.sqrt discriminant
    let root := (h - sqrtd) / a
    if ¬ ray_t.surrounds root then
      let root := (h + sqrtd) / a
      if ¬ ray_t.surrounds root then (false, rec)
      else (true, s.fill_record r root rec)
    else (true, s.fill_record r root rec)

/-- The outcome of `sphere::hit` as an option, abstracting away the
by-reference record threading (the filled record does not depend on the
record passed in, which `sphere.hit_indep` below proves). -/
def sphere.hitResult (s : sphere) (r : ray) (ray_t : interval) :
    Option hit_record :=
  let res := s.hit r ray_t default
  if res.1 then some res.2 else none

/-- The quadratic coefficient `a` of `sphere::hit`. -/
def sphere.aQ (_s : sphere) (r : ray) : ℝ := r.direction.length_squared

/-- The half-b coefficient `h` of `sphere::hit`. -/
def sphere.hQ (s : sphere) (r : ray) : ℝ := dot r.direction (s.center - r.origin)

/-- The constant coefficient `c` of `sphere::hit`. -/
def sphere.cQ (s : sphere) (r : ray) : ℝ :=
  (s.center - r.origin).length_squared - s.radius * s.radius

/-- The reduced discriminant `h*h - a*c` of `sphere::hit`. -/
def sphere.discQ (s : sphere) (r : ray) : ℝ :=
  s.hQ r * s.hQ r - s.aQ r * s.cQ r

/-- The smaller candidate root `(h - sqrt(disc)) / a` of `sphere::hit`. -/
def sphere.root1 (s : sphere) (r : ray) : ℝ :=
  (s.hQ r - Real.sqrt (s.discQ r)) / s.aQ r

/-- The larger candidate root `(h + sqrt(disc)) / a` of `sphere::hit`. -/
def sphere.root2 (s : sphere) (r : ray) : ℝ :=
  (s.hQ r + Real.sqrt (s.discQ r)) / s.aQ r

/-- The loop of `hittable_list::hit` (hittable_list.h lines 74-82).  State:
the local `temp_rec`, `hit_anything`, `closest_so_far`, and the caller's
record `rec`.  After each call the local `temp_rec` holds the callee's final
record state. -/
def listHitLoop (r : ray) (tmin : EReal) :
    List sphere → hit_record → Bool → EReal → hit_record → Bool × hit_record
  | [], _temp, hit_anything, _closest, rec => (hit_anything, rec)
  | obj :: rest, temp, hit_anything, closest, rec =>
    let res := obj.hit r ⟨tmin, closest⟩ temp
    if res.1 then
      listHitLoop r tmin rest res.2 true ((res.2.t : ℝ) : EReal) res.2
    else
      listHitLoop r tmin rest res.2 hit_anything closest rec

/-- `hittable_list::hit`: the scene is the `objects` vector; `temp_rec` is
the default-initialized local record (its initial value is quantified since
the C++ leaves it indeterminate), `rec` the caller's record. -/
def hittable_list.hit (objects : List sphere) (r : ray) (ray_t : interval)
    (temp_rec rec : hit_record) : Bool × hit_record :=
  listHitLoop r ray_t.min objects temp_rec false ray_t.max rec

/-- `degrees_to_radians` from rtweekend.h, with `pi` the exact constant the
double literal approximates. -/
def degrees_to_radians (degrees : ℝ) : ℝ := degrees * Real.pi / 180

/-- The random draws one pixel sample consumes: the two `random_double()`
calls of `Camera::sample_square`, the accepted point of
`random_in_unit_disk()` used by `Camera::defocus_disk_sample`, and one
`scatter_draws` per bounce of the recursive integrator. -/
structure sample_draws where
  sq1 : ℝ
  sq2 : ℝ
  disk1 : ℝ
  disk2 : ℝ
  bounce : ℕ → scatter_draws

/-- A full random tape for a render: the draws of sample number `s` of pixel
`(i, j)`. -/
def random_tape : Type := ℕ → ℕ → ℕ → sample_draws

/-- `Camera::ray_color` (camera.h lines 198-218): depth-bounded recursive
radiance integration.  `bounce k` supplies the random draws the `k`-th
scatter consumes.  The local `hit_record rec` of the C++ is
default-initialized and only read after `world.hit` filled it, so the model
passes `default` for both record slots. -/
def rayColor (world : List sphere) (bounce : ℕ → scatter_draws) (k : ℕ)
    (r : ray) (depth : ℤ) : vec3 :=
  if depth ≤ 0 then ⟨0, 0, 0⟩
  else
    let res := hittable_list.hit world r ⟨((0.001 : ℝ) : EReal), ⊤⟩ default default
    if res.1 then
      let hrec := res.2
      let sres := hrec.mat.scatter r hrec (bounce k)
      if sres.1 then
        sres.2.1 * rayColor world bounce (k + 1) sres.2.2 (depth - 1)
      else ⟨0, 0, 0⟩
    else
      let unit_direction := unit_vector r.direction
      let a := 0.5 * (unit_direction.y + 1)
      (1 - a) • (⟨1, 1, 1⟩ : vec3) + a • (⟨0.5, 0.7, 1.0⟩ : vec3)
  termination_by depth.toNat
  decreasing_by omega

/-- Truncation of a `double` to a C++ `int`: toward zero. -/
def cppInt (x : ℝ) : ℤ := if 0 ≤ x then ⌊x⌋ else ⌈x⌉

/-- Model of the public configuration of `Camera` (camera.h). -/
structure Camera where
  aspect_ratio : ℝ
  image_width : ℤ
  samples_per_pixel : ℤ
  max_depth : ℤ
  vfov : ℝ
  lookfrom : vec3
  lookat : vec3
  vup : vec3
  defocus_angle : ℝ
  focus_dist : ℝ

/-- `Camera::initialize`: `image_height = int(image_width / aspect_ratio)`,
clamped below to 1. -/
def Camera.image_height (cam : Camera) : ℤ :=
  let h := cppInt ((cam.image_width : ℝ) / cam.aspect_ratio)
  if h < 1 then 1 else h

/-- `Camera::initialize`: `pixel_samples_scale = 1.0 / samples_per_pixel`. -/
def Camera.pixel_samples_scale (cam : Camera) : ℝ :=
  1 / (cam.samples_per_pixel : ℝ)

/-- `Camera::initialize`: `center = lookfrom`. -/
def Camera.center (cam : Camera) : vec3 := cam.lookfrom

/-- `Camera::initialize`: viewport height `2 * tan(vfov/2 rad) * focus_dist`. -/
def Camera.viewport_height (cam : Camera) : ℝ :=
  2 * Real.tan (degrees_to_radians cam.vfov / 2) * cam.focus_dist

/-- `Camera::initialize`: `viewport_width = viewport_height * (double(image_width)/image_height)`. -/
def Camera.viewport_width (cam : Camera) : ℝ :=
  cam.viewport_height * ((cam.image_width : ℝ) / (cam.image_height : ℝ))

/-- `Camera::initialize`: `w = unit_vector(lookfrom - lookat)`. -/
def Camera.w (cam : Camera) : vec3 := unit_vector (cam.lookfrom - cam.lookat)

/-- `Camera::initialize`: `u = unit_vector(cross(vup, w))`. -/
def Camera.u (cam : Camera) : vec3 := unit_vector (cross cam.vup cam.w)

/-- `Camera::initialize`: `v = cross(w, u)`. -/
def Camera.v (cam : Camera) : vec3 := cross cam.w cam.u

/-- `Camera::initialize`: `viewport_u = viewport_width * u`. -/
def Camera.viewport_u (cam : Camera) : vec3 := cam.viewport_width • cam.u

/-- `Camera::initialize`: `viewport_v = viewport_height * -v`. -/
def Camera.viewport_v (cam : Camera) : vec3 := cam.viewport_height • (-cam.v)

/-- `Camera::initialize`: `pixel_delta_u = viewport_u / image_width`. -/
def Camera.pixel_delta_u (cam : Camera) : vec3 :=
  cam.viewport_u / (cam.image_width : ℝ)

/-- `Camera::initialize`: `pixel_delta_v = viewport_v / image_height`. -/
def Camera.pixel_delta_v (cam : Camera) : vec3 :=
  cam.viewport_v / (cam.image_height : ℝ)

/-- `Camera::initialize`: the upper-left viewport corner. -/
def Camera.viewport_upper_left (cam : Camera) : vec3 :=
  cam.center - cam.focus_dist • cam.w - cam.viewport_u / (2 : ℝ)
    - cam.viewport_v / (2 : ℝ)

/-- `Camera::initialize`: `pixel00_loc = viewport_upper_left + 0.5 * (pixel_delta_u + pixel_delta_v)`. -/
def Camera.pixel00_loc (cam : Camera) : vec3 :=
  cam.viewport_upper_left + (0.5 : ℝ) • (cam.pixel_delta_u + cam.pixel_delta_v)

/-- `Camera::initialize`: `defocus_radius = focus_dist * tan(defocus_angle/2 rad)`. -/
def Camera.defocus_radius (cam : Camera) : ℝ :=
  cam.focus_dist * Real.tan (degrees_to_radians (cam.defocus_angle / 2))

/-- `Camera::initialize`: `defocus_disk_u = u * defocus_radius`. -/
def Camera.defocus_disk_u (cam : Camera) : vec3 := cam.defocus_radius • cam.u

/-- `Camera::initialize`: `defocus_disk_v = v * defocus_radius`. -/
def Camera.defocus_disk_v (cam : Camera) : vec3 := cam.defocus_radius • cam.v

/-- `Camera::defocus_disk_sample` with the accepted unit-disk point supplied
by the tape. -/
def Camera.defocus_disk_sample (cam : Camera) (d : sample_draws) : vec3 :=
  cam.center + d.disk1 • cam.defocus_disk_u + d.disk2 • cam.defocus_disk_v

/-- `Camera::get_ray(i, j)` (camera.h lines 158-167) with the sample's random
draws supplied by the tape: `sample_square` offsets are
`random_double() - 0.5`. -/
def Camera.get_ray (cam : Camera) (i j : ℕ) (d : sample_draws) : ray :=
  let offset : vec3 := ⟨d.sq1 - 0.5, d.sq2 - 0.5, 0⟩
  let pixel_sample := cam.pixel00_loc
    + ((i : ℝ) + offset.x) • cam.pixel_delta_u
    + ((j : ℝ) + offset.y) • cam.pixel_delta_v
  let ray_origin :=
    if cam.defocus_angle ≤ 0 then cam.center else cam.defocus_disk_sample d
  let ray_direction := pixel_sample - ray_origin
  ⟨ray_origin, ray_direction⟩

/-- The color `Camera::render` hands to `write_color` for pixel `(i, j)`:
the sample loop accumulated into `pixel_color`, scaled by
`pixel_samples_scale`. -/
def Camera.renderPixel (cam : Camera) (world : List sphere) (tape : random_tape)
    (i j : ℕ) : vec3 :=
  let pixel_color := (List.range cam.samples_per_pixel.toNat).foldl
    (fun acc sample =>
      acc + rayColor world (tape i j sample).bounce 0
        (cam.get_ray i j (tape i j sample)) cam.max_depth)
    ⟨0, 0, 0⟩
  cam.pixel_samples_scale • pixel_color

/-- The full image `Camera::render` emits, row-major as the loops run. -/
def Camera.renderImage (cam : Camera) (world : List sphere)
    (tape : random_tape) : List (List vec3) :=
  (List.range cam.image_height.toNat).map fun j =>
    (List.range cam.image_width.toNat).map fun i =>
      cam.renderPixel world tape i j

end

/-- The 32-bit seeding recurrence of `std::mt19937` (the engine behind
`random_double` in rtweekend.h): state word `i` from word `i - 1`.  The
engine is not part of the repository's sources; this models it from the
Mersenne Twister specification the C++ standard fixes. -/
def mtInit (seed : ℕ) : ℕ → ℕ
  | 0 => seed % 4294967296
  | i + 1 =>
    let prev := mtInit seed i
    (1812433253 * (prev ^^^ (prev >>> 30)) + (i + 1)) % 4294967296

/-- The untempered `std::mt19937` state sequence: the first 624 words come
from seeding, word `k ≥ 624` from the twist recurrence on words `k - 624`,
`k - 623` and `k - 227`. -/
def mtSeq (seed : ℕ) : ℕ → ℕ
  | k =>
    if h : k < 624 then mtInit seed k
    else
      let y := (mtSeq seed (k - 624) &&& 2147483648) |||
               (mtSeq seed (k - 623) &&& 2147483647)
      let z := mtSeq seed (k - 227) ^^^ (y >>> 1)
      if y % 2 = 1 then z ^^^ 2567483615 else z
  termination_by k => k
  decreasing_by all_goals omega

/-- The `std::mt19937` output tempering. -/
def mtTemper (x : ℕ) : ℕ :=
  let y := x ^^^ (x >>> 11)
  let y := y ^^^ ((y <<< 7) &&& 2636928640)
  let y := y ^^^ ((y <<< 15) &&& 4022730752)
  y ^^^ (y >>> 18)

/-- The `k`-th 32-bit value a `std::mt19937` engine seeded with `seed`
produces. -/
def mt19937Stream (seed : ℕ) (k : ℕ) : ℕ := mtTemper (mtSeq seed (624 + k))

/-- The default seed of a default-constructed `std::mt19937`
(`static std::mt19937 generator;` in `random_double`, rtweekend.h line 71). -/
def mtDefaultSeed : ℕ := 5489

noncomputable section

/-- One execution of the program's render, as a function of the execution
index: every run constructs the same static, default-seeded `std::mt19937`
engine, so every run derives its random tape from the same output stream
`mt19937Stream mtDefaultSeed`.  `adapt` models the (implementation-defined)
`std::uniform_real_distribution` layer and the rejection samplers, which
turn the engine's deterministic 32-bit stream into the program's random
draws; it is quantified, and is applied to the same engine stream on every
run. -/
def programRun (adapt : (ℕ → ℕ) → random_tape) (cam : Camera)
    (world : List sphere) (_execution : ℕ) : List (List vec3) :=
  cam.renderImage world (adapt (mt19937Stream mtDefaultSeed))

/-- A concrete material for the concrete test scenes. -/
def matGray : material := .lambertian ⟨0.5, 0.5, 0.5⟩

/-- A unit sphere two units in front of the origin. -/
def sphereA : sphere := ⟨⟨0, 0, -2⟩, 1, matGray⟩

/-- A ray from the origin straight toward `sphereA`; it hits at `t = 1`. -/
def rayA : ray := ⟨⟨0, 0, 0⟩, ⟨0, 0, -1⟩⟩

/-- A unit sphere at `(0,0,-1)`. -/
def sphereT : sphere := ⟨⟨0, 0, -1⟩, 1, matGray⟩

/-- A ray grazing `sphereT` tangentially (discriminant exactly zero). -/
def rayT : ray := ⟨⟨1, 0, 0⟩, ⟨0, 0, -1⟩⟩

/-- A unit sphere far off the `y` axis. -/
def sphereM : sphere := ⟨⟨0, 0, -5⟩, 1, matGray⟩

/-- A ray that misses `sphereM` (negative discriminant). -/
def rayM : ray := ⟨⟨0, 0, 0⟩, ⟨0, 1, 0⟩⟩

/-- The concrete query interval `(0, 2)`. -/
def ivlA : interval := ⟨((0 : ℝ) : EReal), ((2 : ℝ) : EReal)⟩

/-- A constant scatter draw. -/
def draws0 : scatter_draws := ⟨⟨0, 0, 0⟩, 0⟩

/-- A constant per-sample draw record. -/
def sampleDraws0 : sample_draws := ⟨0, 0, 0, 0, fun _ => draws0⟩

/-- A constant random tape. -/
def tape0 : random_tape := fun _ _ _ => sampleDraws0

/-- A hit record whose normal points along `+y`, for the metal tests. -/
def recR : hit_record := ⟨⟨0, 0, 0⟩, ⟨0, 1, 0⟩, matGray, 1, true⟩

/-- A non-normalized incident ray for the metal tests. -/
def rayR : ray := ⟨⟨0, 0, 0⟩, ⟨0, -2, 0⟩⟩

/-- A hit record whose normal points along `-y`, for the Lambertian test. -/
def recL : hit_record := ⟨⟨0, 0, 0⟩, ⟨0, -1, 0⟩, matGray, 1, true⟩

/-- A scatter draw whose unit vector points along `-y`. -/
def drawsL : scatter_draws := ⟨⟨0, -1, 0⟩, 0⟩

/-- A concrete camera configuration with a zero depth budget. -/
def camera0 : Camera :=
  { aspect_ratio := 1, image_width := 2, samples_per_pixel := 2, max_depth := 0,
    vfov := 90, lookfrom := ⟨0, 0, 0⟩, lookat := ⟨0, 0, -1⟩, vup := ⟨0, 1, 0⟩,
    defocus_angle := 0, focus_dist := 10 }

end


/-! ## Basic facts about the sphere intersection routine -/

/-- `sphere::hit` overwrites every field of the record on success, so the
filled record does not depend on the record passed in. -/
theorem sphere.fill_record_indep (s : sphere) (r : ray) (root : ℝ)
    (rec rec' : hit_record) :
    s.fill_record r root rec = s.fill_record r root rec' := rfl

/-- The `t` field of the filled record is the chosen root. -/
theorem sphere.fill_record_t (s : sphere) (r : ray) (root : ℝ)
    (rec : hit_record) : (s.fill_record r root rec).t = root := rfl

/-- The point of the filled record is `r.at root`. -/
theorem sphere.fill_record_p (s : sphere) (r : ray) (root : ℝ)
    (rec : hit_record) : (s.fill_record r root rec).p = r.at root := rfl

/-- The material of the filled record is the sphere's. -/
theorem sphere.fill_record_mat (s : sphere) (r : ray) (root : ℝ)
    (rec : hit_record) : (s.fill_record r root rec).mat = s.mat := rfl

/-- The stored front-face flag of the filled record. -/
theorem sphere.fill_record_ff (s : sphere) (r : ray) (root : ℝ)
    (rec : hit_record) :
    (s.fill_record r root rec).front_face =
      (if dot r.direction ((r.at root - s.center) / s.radius) < 0
       then true else false) := rfl

/-- The stored normal of the filled record: the outward normal
`(p - center)/radius` when it faces against the ray, otherwise its
negation. -/
theorem sphere.fill_record_normal (s : sphere) (r : ray) (root : ℝ)
    (rec : hit_record) :
    (s.fill_record r root rec).normal =
      (if dot r.direction ((r.at root - s.center) / s.radius) < 0
       then (r.at root - s.center) / s.radius
       else -((r.at root - s.center) / s.radius)) := by
  by_cases hlt : dot r.direction ((r.at root - s.center) / s.radius) < 0 <;>
    simp [sphere.fill_record, hit_record.set_face_normal, ray.direction, hlt]

/-- `sphere::hit` as the three-way cascade on the discriminant and the two
candidate roots. -/
theorem sphere.hit_cascade (s : sphere) (r : ray) (i : interval)
    (rec : hit_record) :
    s.hit r i rec =
      (if s.discQ r < 0 then (false, rec)
       else if i.surrounds (s.root1 r) then (true, s.fill_record r (s.root1 r) rec)
       else if i.surrounds (s.root2 r) then (true, s.fill_record r (s.root2 r) rec)
       else (false, rec)) := by
  simp only [sphere.hit, sphere.discQ, sphere.root1, sphere.root2, sphere.aQ,
    sphere.hQ, sphere.cQ, ite_not]

/-- `sphere.hitResult` as the same cascade. -/
theorem sphere.hitResult_cascade (s : sphere) (r : ray) (i : interval) :
    s.hitResult r i =
      (if s.discQ r < 0 then none
       else if i.surrounds (s.root1 r) then some (s.fill_record r (s.root1 r) default)
       else if i.surrounds (s.root2 r) then some (s.fill_record r (s.root2 r) default)
       else none) := by
  simp only [sphere.hitResult, sphere.hit_cascade]
  split_ifs <;> simp_all

/-- The imperative `sphere::hit` against the option-valued outcome: on a hit
the record is replaced by the filled one, on a miss it is returned
unchanged. -/
theorem sphere.hit_eq_hitResult (s : sphere) (r : ray) (i : interval)
    (rec : hit_record) :
    s.hit r i rec =
      (match s.hitResult r i with
       | some rc => (true, rc)
       | none => (false, rec)) := by
  rw [sphere.hit_cascade, sphere.hitResult_cascade]
  split_ifs <;> simp [sphere.fill_record_indep s r _ rec default]

/-- A characterization of a successful `sphere::hit` query. -/
theorem sphere.hitResult_some_iff (s : sphere) (r : ray) (i : interval)
    (rc : hit_record) :
    s.hitResult r i = some rc ↔
      0 ≤ s.discQ r ∧
        ((i.surrounds (s.root1 r) ∧ rc = s.fill_record r (s.root1 r) default) ∨
         (¬ i.surrounds (s.root1 r) ∧ i.surrounds (s.root2 r) ∧
           rc = s.fill_record r (s.root2 r) default)) := by
  rw [sphere.hitResult_cascade]
  split_ifs with h1 h2 h3
  · simp [h1]
  · simp [not_lt.mp h1, h2, eq_comm]
  · simp [not_lt.mp h1, h2, h3, eq_comm]
  · simp [not_lt.mp h1, h2, h3]

/-- The quadratic coefficient `a` is a sum of squares. -/
theorem sphere.aQ_nonneg (s : sphere) (r : ray) : 0 ≤ s.aQ r := by
  unfold sphere.aQ vec3.length_squared
  nlinarith [mul_self_nonneg r.direction.x, mul_self_nonneg r.direction.y,
    mul_self_nonneg r.direction.z]

/-- The smaller candidate root is at most the larger one. -/
theorem sphere.root1_le_root2 (s : sphere) (r : ray) :
    s.root1 r ≤ s.root2 r := by
  unfold sphere.root1 sphere.root2
  rcases (sphere.aQ_nonneg s r).eq_or_lt with h | h
  · rw [← h, div_zero, div_zero]
  · exact (div_le_div_iff_of_pos_right h).mpr
      (by linarith [Real.sqrt_nonneg (s.discQ r)])

/-- A successful query's `t` lies strictly inside the query interval. -/
theorem sphere.hitResult_t_mem (s : sphere) (r : ray) (i : interval)
    (rc : hit_record) (h : s.hitResult r i = some rc) :
    i.min < (rc.t : EReal) ∧ (rc.t : EReal) < i.max := by
  rcases (sphere.hitResult_some_iff s r i rc).mp h with ⟨_, hcase⟩
  rcases hcase with ⟨hs, rfl⟩ | ⟨_, hs, rfl⟩ <;>
    simpa [sphere.fill_record_t, interval.surrounds] using hs

/-- Restriction: shrinking the upper bound of the query interval keeps
exactly the hits whose `t` is below the new bound, with the same record.
This is the key property behind the closest-hit scan of
`hittable_list::hit`. -/
theorem sphere.hitResult_shrink (s : sphere) (r : ray)
    (tmin T tmax : EReal) (hT : T ≤ tmax) (rc : hit_record) :
    s.hitResult r ⟨tmin, T⟩ = some rc ↔
      (s.hitResult r ⟨tmin, tmax⟩ = some rc ∧ (rc.t : EReal) < T) := by
  have hroots : ((s.root1 r : ℝ) : EReal) ≤ ((s.root2 r : ℝ) : EReal) :=
    EReal.coe_le_coe_iff.mpr (sphere.root1_le_root2 s r)
  simp only [sphere.hitResult_some_iff, interval.surrounds]
  constructor
  · rintro ⟨hd, hcase⟩
    rcases hcase with ⟨⟨h1, h2⟩, rfl⟩ | ⟨hn1, ⟨h1, h2⟩, rfl⟩
    · refine ⟨⟨hd, Or.inl ⟨⟨h1, lt_of_lt_of_le h2 hT⟩, rfl⟩⟩, ?_⟩
      simpa [sphere.fill_record_t] using h2
    · refine ⟨⟨hd, Or.inr ⟨?_, ⟨h1, lt_of_lt_of_le h2 hT⟩, rfl⟩⟩, ?_⟩
      · rintro ⟨g1, _⟩
        exact hn1 ⟨g1, lt_of_le_of_lt hroots h2⟩
      · simpa [sphere.fill_record_t] using h2
  · rintro ⟨⟨hd, hcase⟩, hlt⟩
    rcases hcase with ⟨⟨h1, _⟩, rfl⟩ | ⟨hn1, ⟨h1, _⟩, rfl⟩
    · rw [sphere.fill_record_t] at hlt
      exact ⟨hd, Or.inl ⟨⟨h1, hlt⟩, rfl⟩⟩
    · rw [sphere.fill_record_t] at hlt
      refine ⟨hd, Or.inr ⟨?_, ⟨h1, hlt⟩, rfl⟩⟩
      rintro ⟨g1, g2⟩
      exact hn1 ⟨g1, lt_of_lt_of_le g2 hT⟩

/-! ## The closest-hit scan -/

/-- Mid-scan characterization of the loop of `hittable_list::hit`, by
induction over the remaining objects.  The state invariant is that the
current record's `t` equals `closest_so_far` whenever a hit was already
recorded.  Conjuncts: a false result leaves the state untouched and means no
remaining object hits `(tmin, closest)`; a true result is either the
untouched incoming state or the record of some remaining object's query; a
true result's `t` never exceeds `closest`; and any remaining object's hit
forces a true result whose `t` is minimal. -/
theorem listHitLoop_char (r : ray) (tmin : EReal) (objs : List sphere) :
    ∀ (temp rec : hit_record) (found : Bool) (closest : EReal),
      (found = true → (rec.t : EReal) = closest) →
      (((listHitLoop r tmin objs temp found closest rec).1 = false →
          listHitLoop r tmin objs temp found closest rec = (found, rec) ∧
          ∀ s ∈ objs, s.hitResult r ⟨tmin, closest⟩ = none) ∧
       ((listHitLoop r tmin objs temp found closest rec).1 = true →
          listHitLoop r tmin objs temp found closest rec = (found, rec) ∨
          ∃ s ∈ objs, s.hitResult r ⟨tmin, closest⟩ =
            some (listHitLoop r tmin objs temp found closest rec).2) ∧
       ((listHitLoop r tmin objs temp found closest rec).1 = true →
          (((listHitLoop r tmin objs temp found closest rec).2.t : ℝ) : EReal)
            ≤ closest) ∧
       (∀ s ∈ objs, ∀ rc, s.hitResult r ⟨tmin, closest⟩ = some rc →
          (listHitLoop r tmin objs temp found closest rec).1 = true ∧
          (listHitLoop r tmin objs temp found closest rec).2.t ≤ rc.t)) := by
  induction objs with
  | nil =>
    intro temp rec found closest Hfc
    refine ⟨?_, fun _ => Or.inl rfl, ?_, ?_⟩
    · exact fun _ => ⟨rfl, fun s hs => absurd hs (List.not_mem_nil s)⟩
    · exact fun h => le_of_eq (Hfc h)
    · exact fun s hs => absurd hs (List.not_mem_nil s)
  | cons obj rest ih =>
    intro temp rec found closest Hfc
    cases hres : obj.hitResult r ⟨tmin, closest⟩ with
    | none =>
      have hloop : listHitLoop r tmin (obj :: rest) temp found closest rec =
          listHitLoop r tmin rest temp found closest rec := by
        simp only [listHitLoop, sphere.hit_eq_hitResult, hres]
        simp
      rw [hloop]
      obtain ⟨ih1, ih2, ih3, ih4⟩ := ih temp rec found closest Hfc
      refine ⟨?_, ?_, ih3, ?_⟩
      · intro hf
        obtain ⟨he, hall⟩ := ih1 hf
        refine ⟨he, fun s hs => ?_⟩
        rcases List.mem_cons.mp hs with rfl | hs'
        · exact hres
        · exact hall s hs'
      · intro ht
        rcases ih2 ht with h | ⟨s, hs, hsome⟩
        · exact Or.inl h
        · exact Or.inr ⟨s, List.mem_cons_of_mem _ hs, hsome⟩
      · intro s hs rc hrc
        rcases List.mem_cons.mp hs with rfl | hs'
        · rw [hres] at hrc; cases hrc
        · exact ih4 s hs' rc hrc
    | some rc0 =>
      have hmem := sphere.hitResult_t_mem _ _ _ _ hres
      have hle : ((rc0.t : ℝ) : EReal) ≤ closest := le_of_lt hmem.2
      have hloop : listHitLoop r tmin (obj :: rest) temp found closest rec =
          listHitLoop r tmin rest rc0 true ((rc0.t : ℝ) : EReal) rc0 := by
        simp only [listHitLoop, sphere.hit_eq_hitResult, hres]
        simp
      rw [hloop]
      obtain ⟨ih1, ih2, ih3, ih4⟩ :=
        ih rc0 rc0 true ((rc0.t : ℝ) : EReal) (fun _ => rfl)
      have hLt : (listHitLoop r tmin rest rc0 true ((rc0.t : ℝ) : EReal) rc0).1
          = true := by
        by_cases h :
          (listHitLoop r tmin rest rc0 true ((rc0.t : ℝ) : EReal) rc0).1 = true
        · exact h
        · obtain ⟨he, _⟩ := ih1 (Bool.not_eq_true _ ▸ h)
          rw [he]
      refine ⟨?_, ?_, ?_, ?_⟩
      · intro hf
        rw [hf] at hLt
        cases hLt
      · intro _
        rcases ih2 hLt with hEq | ⟨s, hs, hsome⟩
        · refine Or.inr ⟨obj, List.mem_cons_self _ _, ?_⟩
          rw [hEq]
          exact hres
        · refine Or.inr ⟨s, List.mem_cons_of_mem _ hs, ?_⟩
          exact ((sphere.hitResult_shrink s r tmin _ closest hle _).mp hsome).1
      · intro _
        exact le_trans (ih3 hLt) hle
      · intro s hs rc hrc
        refine ⟨hLt, ?_⟩
        have hL2 : ((listHitLoop r tmin rest rc0 true ((rc0.t : ℝ) : EReal)
            rc0).2.t : ℝ) ≤ rc0.t := EReal.coe_le_coe_iff.mp (ih3 hLt)
        rcases List.mem_cons.mp hs with rfl | hs'
        · rw [hres] at hrc
          injection hrc with h
          rw [← h]
          exact hL2
        · by_cases hcomp : (rc.t : EReal) < ((rc0.t : ℝ) : EReal)
          · have hshr := (sphere.hitResult_shrink s r tmin _ closest hle rc).mpr
              ⟨hrc, hcomp⟩
            exact (ih4 s hs' rc hshr).2
          · have : (rc0.t : ℝ) ≤ rc.t :=
              EReal.coe_le_coe_iff.mp (le_of_not_lt hcomp)
            linarith

/-! ## Componentwise evaluation lemmas for the vector operations -/

@[simp] theorem vec3.add_def (u v : vec3) :
    u + v = ⟨u.x + v.x, u.y + v.y, u.z + v.z⟩ := rfl

@[simp] theorem vec3.sub_def (u v : vec3) :
    u - v = ⟨u.x - v.x, u.y - v.y, u.z - v.z⟩ := rfl

@[simp] theorem vec3.neg_def (v : vec3) : -v = ⟨-v.x, -v.y, -v.z⟩ := rfl

@[simp] theorem vec3.smul_def (t : ℝ) (v : vec3) :
    t • v = ⟨t * v.x, t * v.y, t * v.z⟩ := rfl

@[simp] theorem vec3.mul_def (u v : vec3) :
    u * v = ⟨u.x * v.x, u.y * v.y, u.z * v.z⟩ := rfl

@[simp] theorem vec3.div_def (v : vec3) (t : ℝ) :
    v / t = ⟨1 / t * v.x, 1 / t * v.y, 1 / t * v.z⟩ := rfl

/-! ## C1: the closest-hit invariant of the scene scan -/

/-- C1.  For every scene, ray and query interval, `hittable_list::hit`
returns true exactly when some primitive reports a hit on the original
interval; on success the returned record is one some primitive reports and
its `t` is minimal among every record any primitive reports on that
interval; and any single query made with the scan's shrunken upper bound
`closest_so_far` can only succeed with a `t` strictly below that bound, so a
later primitive can only replace the current record with a strictly closer
hit. -/
theorem C1_closest_hit (objects : List sphere) (r : ray) (ray_t : interval)
    (temp0 rec0 : hit_record) :
    ((hittable_list.hit objects r ray_t temp0 rec0).1 = true ↔
      ∃ s ∈ objects, (s.hitResult r ray_t).isSome = true) ∧
    ((hittable_list.hit objects r ray_t temp0 rec0).1 = true →
      ∃ s ∈ objects, s.hitResult r ray_t =
        some (hittable_list.hit objects r ray_t temp0 rec0).2) ∧
    (∀ s ∈ objects, ∀ rc, s.hitResult r ray_t = some rc →
      (hittable_list.hit objects r ray_t temp0 rec0).1 = true ∧
      (hittable_list.hit objects r ray_t temp0 rec0).2.t ≤ rc.t) ∧
    (∀ (s : sphere) (tmin closest : EReal) (temp rc : hit_record),
      s.hit r ⟨tmin, closest⟩ temp = (true, rc) →
      tmin < (rc.t : EReal) ∧ (rc.t : EReal) < closest) := by
  obtain ⟨m1, m2, m3, m4⟩ :=
    listHitLoop_char r ray_t.min objects temp0 rec0 false ray_t.max
      (fun h => nomatch h)
  simp only [hittable_list.hit]
  refine ⟨⟨?_, ?_⟩, ?_, ?_, ?_⟩
  · intro h
    rcases m2 h with hEq | ⟨s, hs, hsome⟩
    · rw [hEq] at h
      cases h
    · exact ⟨s, hs, by rw [hsome]; rfl⟩
  · rintro ⟨s, hs, hisSome⟩
    obtain ⟨rc, hrc⟩ := Option.isSome_iff_exists.mp hisSome
    exact (m4 s hs rc hrc).1
  · intro h
    rcases m2 h with hEq | h2
    · rw [hEq] at h
      cases h
    · exact h2
  · exact m4
  · intro s tmin closest temp rc hhit
    rw [sphere.hit_eq_hitResult] at hhit
    cases hres : s.hitResult r ⟨tmin, closest⟩ with
    | none => rw [hres] at hhit; cases hhit
    | some rc' =>
      rw [hres] at hhit
      have : rc' = rc := congrArg Prod.snd hhit
      rw [← this]
      exact sphere.hitResult_t_mem _ _ _ _ hres

/-- Dot product against a negated second argument. -/
theorem dot_neg_right (u v : vec3) : dot u (-v) = -dot u v := by
  simp [dot]
  ring

/-- Concrete evaluation: `sphereA` reports the hit at `t = 1` for `rayA` on
`(0, 2)`. -/
theorem sphereA_hitResult :
    sphereA.hitResult rayA ivlA = some (sphereA.fill_record rayA 1 default) := by
  have ha : sphereA.aQ rayA = 1 := by
    norm_num [sphere.aQ, vec3.length_squared, ray.direction, sphereA, rayA]
  have hh : sphereA.hQ rayA = 2 := by
    norm_num [sphere.hQ, dot, ray.direction, ray.origin, sphereA, rayA]
  have hc : sphereA.cQ rayA = 3 := by
    norm_num [sphere.cQ, vec3.length_squared, ray.origin, sphereA, rayA]
  have hd : sphereA.discQ rayA = 1 := by
    rw [sphere.discQ, ha, hh, hc]
    norm_num
  have hr1 : sphereA.root1 rayA = 1 := by
    rw [sphere.root1, ha, hh, hd, Real.sqrt_one]
    norm_num
  rw [sphere.hitResult_cascade, hd, hr1]
  rw [if_neg (by norm_num), if_pos]
  exact ⟨EReal.coe_lt_coe_iff.mpr (by norm_num),
         EReal.coe_lt_coe_iff.mpr (by norm_num)⟩

/-- Concrete evaluation of the imperative `sphere::hit` on the same input. -/
theorem sphereA_hit_eval :
    sphereA.hit rayA ivlA default =
      (true, sphereA.fill_record rayA 1 default) := by
  rw [sphere.hit_eq_hitResult, sphereA_hitResult]

/-- A concrete run of the scene scan: the singleton scene `[sphereA]` reports
the hit of `sphereA`, exercising `C1_closest_hit` at a concrete input. -/
theorem C1_closest_hit_witness :
    (hittable_list.hit [sphereA] rayA ivlA default default).1 = true :=
  (C1_closest_hit [sphereA] rayA ivlA default default).1.mpr
    ⟨sphereA, by simp, by rw [sphereA_hitResult]; rfl⟩

/-! ## C2: orientation of the stored normal -/

/-- Concrete evaluation: the tangent ray `rayT` grazes `sphereT`
(discriminant zero) and the reported hit is at `t = 1`. -/
theorem sphereT_hit_eval :
    sphereT.hit rayT ivlA default =
      (true, sphereT.fill_record rayT 1 default) := by
  have ha : sphereT.aQ rayT = 1 := by
    norm_num [sphere.aQ, vec3.length_squared, ray.direction, sphereT, rayT]
  have hh : sphereT.hQ rayT = 1 := by
    norm_num [sphere.hQ, dot, ray.direction, ray.origin, sphereT, rayT]
  have hc : sphereT.cQ rayT = 1 := by
    norm_num [sphere.cQ, vec3.length_squared, ray.origin, sphereT, rayT]
  have hd : sphereT.discQ rayT = 0 := by
    rw [sphere.discQ, ha, hh, hc]
    norm_num
  have hr1 : sphereT.root1 rayT = 1 := by
    rw [sphere.root1, ha, hh, hd, Real.sqrt_zero]
    norm_num
  rw [sphere.hit_cascade, hd, hr1]
  rw [if_neg (by norm_num), if_pos]
  exact ⟨EReal.coe_lt_coe_iff.mpr (by norm_num),
         EReal.coe_lt_coe_iff.mpr (by norm_num)⟩

/-- C2 counterexample.  On the tangent hit of `rayT` against `sphereT` the
ray grazes the surface: the geometric outward normal is perpendicular to the
ray direction, so after `set_face_normal` the stored normal satisfies
`dot(direction, normal) = 0`, refuting the claimed strict inequality
`dot(ray.direction, hit.normal) < 0`. -/
theorem C2_counterexample :
    (sphereT.hit rayT ivlA default).1 = true ∧
    ¬ dot rayT.direction (sphereT.hit rayT ivlA default).2.normal < 0 := by
  rw [sphereT_hit_eval]
  refine ⟨rfl, ?_⟩
  rw [sphere.fill_record_normal]
  norm_num [ray.at, ray.direction, dot, sphereT, rayT]

/-- C2 (amended).  For every hit `sphere::hit` reports, the stored normal
satisfies `dot(ray.direction, hit.normal) ≤ 0` — strictly so unless the ray
is tangent to the sphere at the hit point (the geometric outward normal is
perpendicular to the direction) — and `front_face` is true exactly when the
geometric outward normal `(p - center)/radius` already pointed against the
incoming ray. -/
theorem C2_normal_orientation (s : sphere) (r : ray) (i : interval)
    (temp rc : hit_record) (h : s.hit r i temp = (true, rc)) :
    dot r.direction rc.normal ≤ 0 ∧
    (dot r.direction ((rc.p - s.center) / s.radius) ≠ 0 →
      dot r.direction rc.normal < 0) ∧
    (rc.front_face = true ↔
      dot r.direction ((rc.p - s.center) / s.radius) < 0) := by
  rw [sphere.hit_eq_hitResult] at h
  cases hres : s.hitResult r i with
  | none => rw [hres] at h; cases h
  | some rc' =>
    rw [hres] at h
    have hrc : rc' = rc := congrArg Prod.snd h
    subst hrc
    rcases (sphere.hitResult_some_iff s r i rc').mp hres with ⟨_, hcase⟩
    have hfill : ∃ root : ℝ, rc' = s.fill_record r root default := by
      rcases hcase with ⟨_, hfe⟩ | ⟨_, _, hfe⟩
      · exact ⟨s.root1 r, hfe⟩
      · exact ⟨s.root2 r, hfe⟩
    obtain ⟨root, rfl⟩ := hfill
    rw [sphere.fill_record_normal, sphere.fill_record_ff, sphere.fill_record_p]
    by_cases hlt : dot r.direction ((r.at root - s.center) / s.radius) < 0
    · rw [if_pos hlt, if_pos hlt]
      exact ⟨le_of_lt hlt, fun _ => hlt, iff_of_true rfl hlt⟩
    · rw [if_neg hlt, if_neg hlt]
      rw [dot_neg_right]
      refine ⟨by linarith [not_lt.mp hlt], fun hne => ?_,
        iff_of_false Bool.false_ne_true hlt⟩
      rcases lt_or_eq_of_le (not_lt.mp hlt) with hpos | hzero
      · linarith
      · exact absurd hzero.symm hne

/-- Non-tangent concrete instance of the amended orientation theorem: the
stored normal of the `rayA`-`sphereA` hit satisfies the inequality. -/
theorem C2_normal_orientation_witness :
    dot rayA.direction (sphereA.fill_record rayA 1 default).normal ≤ 0 :=
  (C2_normal_orientation sphereA rayA ivlA default
    (sphereA.fill_record rayA 1 default) sphereA_hit_eval).1

/-! ## Vector helper identities -/

/-- Adding the zero vector is the identity. -/
theorem vec3.add_zero_vec (v : vec3) : v + (⟨0, 0, 0⟩ : vec3) = v := by
  ext <;> simp

/-- Scaling by zero gives the zero vector. -/
theorem vec3.zero_smul_vec (v : vec3) : (0 : ℝ) • v = (⟨0, 0, 0⟩ : vec3) := by
  ext <;> simp

/-- Scaling the zero vector gives the zero vector. -/
theorem vec3.smul_zero_vec (t : ℝ) : t • (⟨0, 0, 0⟩ : vec3) = (⟨0, 0, 0⟩ : vec3) := by
  ext <;> simp

/-! ## C3: the near-zero test and the Lambertian fallback -/

/-- C3 (bug evidence).  `vec3::near_zero` accepts `(0, -1, 0)`: the source
applies `fabs` to the boolean `e[1] < s` instead of to `e[1]`, so the `y`
component is tested without its absolute value.  The vector `(0,-1,0)` is
far from zero (the spec predicate rejects it), yet `near_zero` is true; and
`lambertian::scatter` with normal `(0,-1,0)` and unit draw `(0,-1,0)`
consequently discards the non-degenerate direction `(0,-2,0)` and falls back
to the normal, which the claim forbids. -/
theorem C3_near_zero_bug :
    vec3.near_zero ⟨0, -1, 0⟩ ∧
    ¬ nearZeroSpec ⟨0, -1, 0⟩ ∧
    ¬ nearZeroSpec (recL.normal + drawsL.ruv) ∧
    (material.scatter (.lambertian ⟨0.5, 0.5, 0.5⟩) rayA recL drawsL).2.2.dir
      = recL.normal := by
  have hcond : ((-1 : ℝ) < 1e-8) := by norm_num
  refine ⟨⟨by norm_num, ?_, by norm_num⟩, ?_, ?_, ?_⟩
  · rw [boolAsDouble, if_pos hcond]
    norm_num
  · intro h
    have := h.2.1
    norm_num at this
  · intro h
    have := h.2.1
    simp only [recL, drawsL, vec3.add_def] at this
    norm_num at this
  · have hnz : (recL.normal + drawsL.ruv).near_zero := by
      simp only [recL, drawsL, vec3.add_def, vec3.near_zero]
      refine ⟨by norm_num, ?_, by norm_num⟩
      rw [boolAsDouble, if_pos (by norm_num : (-1 : ℝ) + -1 < 1e-8)]
      norm_num
    simp only [material.scatter]
    rw [if_pos hnz]

/-! ## C4: the metal fuzz clamp -/

/-- C4 counterexample.  The metal constructor `fuzz < 1 ? fuzz : 1` clamps
only from above: the argument `-1` is stored as `-1`, outside `[0, 1]`. -/
theorem C4_counterexample :
    (makeMetal ⟨1, 1, 1⟩ (-1)).fuzzOf = -1 ∧
    ¬ (0 ≤ (makeMetal ⟨1, 1, 1⟩ (-1)).fuzzOf) := by
  constructor <;> norm_num [makeMetal, material.fuzzOf]

/-- C4 (amended).  The stored fuzz is `fuzz < 1 ? fuzz : 1`: it never
exceeds 1, and it lies in the closed interval `[0, 1]` whenever the
constructor argument is nonnegative; a negative argument is stored
unchanged. -/
theorem C4_fuzz_clamp (albedo : vec3) (fuzz : ℝ) :
    (makeMetal albedo fuzz).fuzzOf ≤ 1 ∧
    (0 ≤ fuzz → 0 ≤ (makeMetal albedo fuzz).fuzzOf ∧
      (makeMetal albedo fuzz).fuzzOf ≤ 1) ∧
    (makeMetal albedo fuzz).fuzzOf = (if fuzz < 1 then fuzz else 1) := by
  simp only [makeMetal, material.fuzzOf]
  split_ifs with h
  · exact ⟨le_of_lt h, fun h0 => ⟨h0, le_of_lt h⟩, trivial⟩
  · exact ⟨le_refl 1, fun _ => ⟨zero_le_one, le_refl 1⟩, trivial⟩

/-! ## C6: dielectric scatter -/

/-- C6.  The dielectric material (class `dialectric`) always scatters and
always reports the attenuation `(1,1,1)`, whichever of the reflect and
refract branches the draw selects. -/
theorem C6_dialectric_never_absorbs (ri_val : ℝ) (r_in : ray)
    (rec : hit_record) (d : scatter_draws) :
    (material.scatter (.dialectric ri_val) r_in rec d).1 = true ∧
    (material.scatter (.dialectric ri_val) r_in rec d).2.1 = ⟨1, 1, 1⟩ :=
  ⟨rfl, rfl⟩

/-! ## C8: metal reflection -/

/-- Concrete evaluation: the mirror reflection of `(0,-2,0)` about the unit
normal `(0,1,0)` is `(0,2,0)`. -/
theorem reflect_rayR : reflect rayR.direction recR.normal = ⟨0, 2, 0⟩ := by
  simp only [reflect, rayR, recR, ray.direction, dot, vec3.smul_def, vec3.sub_def]
  norm_num

/-- Concrete evaluation: normalizing `(0,2,0)` halves it. -/
theorem unit_vector_eval : unit_vector (⟨0, 2, 0⟩ : vec3) = ⟨0, 1, 0⟩ := by
  have hlen : vec3.length ⟨0, 2, 0⟩ = 2 := by
    rw [vec3.length, vec3.length_squared]
    rw [show ((0 : ℝ) * 0 + 2 * 2 + 0 * 0) = 2 ^ 2 by norm_num]
    exact Real.sqrt_sq (by norm_num)
  rw [unit_vector, hlen]
  ext <;> norm_num

/-- C8 counterexample.  With `fuzz = 0` and the non-normalized incident
direction `(0,-2,0)` against the normal `(0,1,0)`, the scattered direction
is the re-normalized reflection `(0,1,0)`, which differs from the exact
mirror reflection `reflect(v,n) = (0,2,0)` demanded by the claim. -/
theorem C8_counterexample :
    (material.scatter (.metal ⟨1, 1, 1⟩ 0) rayR recR draws0).2.2.dir
      = ⟨0, 1, 0⟩ ∧
    reflect rayR.direction recR.normal = ⟨0, 2, 0⟩ ∧
    (material.scatter (.metal ⟨1, 1, 1⟩ 0) rayR recR draws0).2.2.dir
      ≠ reflect rayR.direction recR.normal := by
  have heval :
      (material.scatter (.metal ⟨1, 1, 1⟩ 0) rayR recR draws0).2.2.dir
        = ⟨0, 1, 0⟩ := by
    show unit_vector (reflect rayR.direction recR.normal) + (0 : ℝ) • draws0.ruv
      = (⟨0, 1, 0⟩ : vec3)
    rw [reflect_rayR, unit_vector_eval, vec3.zero_smul_vec, vec3.add_zero_vec]
  refine ⟨heval, reflect_rayR, ?_⟩
  rw [heval, reflect_rayR]
  intro h
  have := congrArg vec3.y h
  norm_num at this

/-- C8 (amended).  With `fuzz = 0` the scattered direction is the
re-normalized mirror reflection `unit_vector(reflect(v, n))` (the source
normalizes the reflection before adding `fuzz * random_unit_vector()`), and
for every fuzz the scatter is rejected — `metal::scatter` returns false —
exactly when `dot(scattered.direction, normal) ≤ 0`. -/
theorem C8_metal_scatter (albedo : vec3) (fuzz : ℝ) (r_in : ray)
    (rec : hit_record) (d : scatter_draws) :
    ((material.scatter (.metal albedo 0) r_in rec d).2.2.dir =
      unit_vector (reflect r_in.direction rec.normal)) ∧
    ((material.scatter (.metal albedo fuzz) r_in rec d).1 = false ↔
      dot (material.scatter (.metal albedo fuzz) r_in rec d).2.2.dir
        rec.normal ≤ 0) := by
  constructor
  · show unit_vector (reflect r_in.direction rec.normal) + (0 : ℝ) • d.ruv = _
    rw [vec3.zero_smul_vec, vec3.add_zero_vec]
  · show (if dot (unit_vector (reflect r_in.direction rec.normal)
        + fuzz • d.ruv) rec.normal > 0 then true else false) = false ↔ _
    split_ifs with h
    · exact iff_of_false (by simp) (not_le.mpr h)
    · exact iff_of_true rfl (not_lt.mp h)

/-! ## C5: the quadratic root cascade of sphere::hit -/

/-- The filled record written out field by field. -/
theorem sphere.fill_record_eq_mk (s : sphere) (r : ray) (root : ℝ)
    (rec : hit_record) :
    s.fill_record r root rec =
      ⟨r.at root,
       (if dot r.direction ((r.at root - s.center) / s.radius) < 0
        then (r.at root - s.center) / s.radius
        else -((r.at root - s.center) / s.radius)),
       s.mat, root,
       (if dot r.direction ((r.at root - s.center) / s.radius) < 0
        then true else false)⟩ := by
  ext1
  · exact sphere.fill_record_p s r root rec
  · exact sphere.fill_record_normal s r root rec
  · exact sphere.fill_record_mat s r root rec
  · exact sphere.fill_record_t s r root rec
  · exact sphere.fill_record_ff s r root rec

/-- C5.  `sphere::hit` follows the reduced quadratic exactly: with
`oc = center - origin`, `a = |direction|²`, `h = direction·oc`,
`c = |oc|² - radius²` and `disc = h² - a·c`, a negative discriminant reports
no hit; otherwise the smaller root `(h - √disc)/a` is taken when it lies
strictly inside the query interval, else the larger root `(h + √disc)/a`,
else no hit; and on success the record holds `t` equal to the chosen root,
point `ray.at(t)`, the outward normal `(point - center)/radius` oriented by
`set_face_normal`, and the sphere's material. -/
theorem C5_sphere_hit_quadratic (s : sphere) (r : ray) (ray_t : interval) :
    (dot r.direction (s.center - r.origin) *
        dot r.direction (s.center - r.origin) -
        r.direction.length_squared *
        ((s.center - r.origin).length_squared - s.radius * s.radius) < 0 →
      s.hitResult r ray_t = none) ∧
    (0 ≤ s.discQ r →
      ((ray_t.surrounds (s.root1 r) →
        s.hitResult r ray_t =
          some ⟨r.at (s.root1 r),
            (if dot r.direction ((r.at (s.root1 r) - s.center) / s.radius) < 0
             then (r.at (s.root1 r) - s.center) / s.radius
             else -((r.at (s.root1 r) - s.center) / s.radius)),
            s.mat, s.root1 r,
            (if dot r.direction ((r.at (s.root1 r) - s.center) / s.radius) < 0
             then true else false)⟩) ∧
       (¬ ray_t.surrounds (s.root1 r) → ray_t.surrounds (s.root2 r) →
        s.hitResult r ray_t =
          some ⟨r.at (s.root2 r),
            (if dot r.direction ((r.at (s.root2 r) - s.center) / s.radius) < 0
             then (r.at (s.root2 r) - s.center) / s.radius
             else -((r.at (s.root2 r) - s.center) / s.radius)),
            s.mat, s.root2 r,
            (if dot r.direction ((r.at (s.root2 r) - s.center) / s.radius) < 0
             then true else false)⟩) ∧
       (¬ ray_t.surrounds (s.root1 r) → ¬ ray_t.surrounds (s.root2 r) →
        s.hitResult r ray_t = none))) := by
  have hdisc : s.discQ r =
      dot r.direction (s.center - r.origin) *
        dot r.direction (s.center - r.origin) -
        r.direction.length_squared *
        ((s.center - r.origin).length_squared - s.radius * s.radius) := rfl
  constructor
  · intro hd
    rw [sphere.hitResult_cascade, if_pos (by rw [hdisc]; exact hd)]
  · intro hd
    refine ⟨?_, ?_, ?_⟩
    · intro h1
      rw [sphere.hitResult_cascade, if_neg (not_lt.mpr hd), if_pos h1,
        sphere.fill_record_eq_mk]
    · intro h1 h2
      rw [sphere.hitResult_cascade, if_neg (not_lt.mpr hd), if_neg h1,
        if_pos h2, sphere.fill_record_eq_mk]
    · intro h1 h2
      rw [sphere.hitResult_cascade, if_neg (not_lt.mpr hd), if_neg h1,
        if_neg h2]

/-- Concrete instance of the cascade: the `rayA`-`sphereA` query takes the
smaller root branch at `t = 1`. -/
theorem C5_sphere_hit_quadratic_witness :
    sphereA.hitResult rayA ivlA ≠ none := by
  rw [sphereA_hitResult]
  exact Option.some_ne_none _

/-! ## C9: a miss leaves the caller's record untouched -/

/-- C9.  When `sphere::hit` or `hittable_list::hit` reports a miss, the
caller-supplied record comes back exactly as it went in: no field is
written on any miss path. -/
theorem C9_miss_frame (s : sphere) (objects : List sphere) (r : ray)
    (ray_t : interval) (temp rec : hit_record) :
    ((s.hit r ray_t rec).1 = false → (s.hit r ray_t rec).2 = rec) ∧
    ((hittable_list.hit objects r ray_t temp rec).1 = false →
      (hittable_list.hit objects r ray_t temp rec).2 = rec) := by
  constructor
  · intro h
    rw [sphere.hit_eq_hitResult] at h ⊢
    cases hres : s.hitResult r ray_t with
    | none => rfl
    | some rc =>
      rw [hres] at h
      exact absurd h (by simp)
  · intro h
    obtain ⟨he, _⟩ :=
      (listHitLoop_char r ray_t.min objects temp rec false ray_t.max
        (fun hh => nomatch hh)).1 h
    exact congrArg Prod.snd he

/-- Concrete instance: `rayM` misses `sphereM` (negative discriminant) and
the record passed in survives unchanged. -/
theorem C9_miss_frame_witness :
    (sphereM.hit rayM ivlA recR).2 = recR := by
  have hd : sphereM.discQ rayM < 0 := by
    have : sphereM.discQ rayM = 0 * 0 - 1 * 24 := by
      rw [sphere.discQ]
      congr 1
      · norm_num [sphere.hQ, dot, ray.direction, ray.origin, sphereM, rayM]
      · congr 1
        · norm_num [sphere.aQ, vec3.length_squared, ray.direction, rayM]
        · norm_num [sphere.cQ, vec3.length_squared, ray.origin, sphereM, rayM]
    rw [this]
    norm_num
  exact (C9_miss_frame sphereM [] rayM ivlA recR recR).1
    (by rw [sphere.hit_cascade, if_pos hd])

/-! ## C7: depth termination -/

/-- Zero radiance at an exhausted depth budget. -/
theorem rayColor_depth_nonpos (world : List sphere)
    (bounce : ℕ → scatter_draws) (k : ℕ) (r : ray) (depth : ℤ)
    (h : depth ≤ 0) : rayColor world bounce k r depth = ⟨0, 0, 0⟩ := by
  rw [rayColor]
  exact if_pos h

/-- Folding additions of zero vectors leaves the accumulator unchanged. -/
theorem foldl_add_zero (f : ℕ → vec3) (hf : ∀ n, f n = ⟨0, 0, 0⟩) :
    ∀ (l : List ℕ) (acc : vec3), l.foldl (fun a n => a + f n) acc = acc := by
  intro l
  induction l with
  | nil => intro acc; rfl
  | cons hd tl ih =>
    intro acc
    rw [List.foldl_cons, hf, vec3.add_zero_vec]
    exact ih acc

/-- C7.  `Camera::ray_color` returns exactly `(0,0,0)` for every depth
budget `≤ 0`, for every ray, scene and random tape — depth exhaustion is a
total, value-level termination, never a fault — and consequently with
`max_depth = 0` every pixel `Camera::render` emits is pure black whatever
the scene holds. -/
theorem C7_depth_termination (world : List sphere)
    (bounce : ℕ → scatter_draws) (k : ℕ) (r : ray) (depth : ℤ)
    (cam : Camera) (tape : random_tape) :
    (depth ≤ 0 → rayColor world bounce k r depth = ⟨0, 0, 0⟩) ∧
    (cam.max_depth = 0 →
      ∀ row ∈ cam.renderImage world tape, ∀ pix ∈ row, pix = ⟨0, 0, 0⟩) := by
  constructor
  · exact rayColor_depth_nonpos world bounce k r depth
  · intro h0 row hrow pix hpix
    obtain ⟨j, _, rfl⟩ := List.mem_map.mp hrow
    obtain ⟨i, _, rfl⟩ := List.mem_map.mp hpix
    show cam.pixel_samples_scale • _ = _
    rw [foldl_add_zero _ (fun sample => by
      rw [h0]
      exact rayColor_depth_nonpos _ _ _ _ _ (le_refl 0))]
    exact vec3.smul_zero_vec _

/-- Concrete instance: a zero depth budget yields black. -/
theorem C7_depth_termination_witness :
    rayColor [sphereA] (fun _ => draws0) 0 rayA 0 = ⟨0, 0, 0⟩ :=
  (C7_depth_termination [sphereA] (fun _ => draws0) 0 rayA 0 camera0 tape0).1
    (le_refl 0)

/-! ## C10: determinism of the render -/

/-- C10.  Rendering is deterministic across executions: `random_double`
draws from a static `std::mt19937` engine that every run default-constructs
with the same seed (5489), so every execution consumes the same engine
stream `mt19937Stream mtDefaultSeed`; whatever distribution layer `adapt`
turns that stream into the program's draws, two runs with the same camera
configuration and scene produce identical pixel output. -/
theorem C10_render_deterministic (adapt : (ℕ → ℕ) → random_tape)
    (cam : Camera) (world : List sphere) (run1 run2 : ℕ) :
    programRun adapt cam world run1 = programRun adapt cam world run2 := rfl

/-- Concrete instance: two executions of the same render coincide. -/
theorem C10_render_deterministic_witness :
    programRun (fun _ => tape0) camera0 [sphereA] 0 =
      programRun (fun _ => tape0) camera0 [sphereA] 1 :=
  C10_render_deterministic (fun _ => tape0) camera0 [sphereA] 0 1
